import Mathlib

/-!
Verification of the cGMP regulation chatbot (src/main.py): a shallow
embedding of the document ingestion pipeline (PDF structural extraction,
recursive character chunking, deduplication, FAISS indexing) and of the
retrieval-augmented answer generation step.  External libraries (fitz,
PyPDFLoader, OpenAI embeddings, the Anthropic model, FAISS similarity
search, hashlib.md5) are modelled as parameters of an `Env` record or, for
FAISS `from_documents` / `merge_from` and for langchain's
`RecursiveCharacterTextSplitter`, by executable Lean definitions following
their documented semantics.  Python dictionaries holding heterogeneous
metadata are modelled as association lists of a value type `MVal`.
-/

namespace Cgmp

/-- A Python metadata value: the app only ever stores ints, strings and
booleans in document metadata. -/
inductive MVal where
  | i (n : Int)
  | s (str : String)
  | b (bool : Bool)
deriving DecidableEq

/-- Python `str(v)` on a metadata value. -/
def pyStr : MVal → String
  | .i n => toString n
  | .s str => str
  | .b true => "True"
  | .b false => "False"

/-- Python truthiness of a metadata value. -/
def pyTruthy : MVal → Bool
  | .i n => n ≠ 0
  | .s str => str ≠ ""
  | .b bo => bo

/-- Python `str.isdigit` (ASCII approximation): nonempty and all digits. -/
def pyIsdigit (s : String) : Bool :=
  !s.data.isEmpty && s.data.all Char.isDigit

/-- A Python dict used as document metadata, as an association list. -/
abbrev Metadata := List (String × MVal)

/-- `m[k]` as an option: first binding of key `k`. -/
def Metadata.get (m : Metadata) (k : String) : Option MVal :=
  (m.find? (fun p => p.1 = k)).map (fun p => p.2)

/-- Python `m.get(k, d)`. -/
def Metadata.getD (m : Metadata) (k : String) (d : MVal) : MVal :=
  (Metadata.get m k).getD d

/-- A langchain `Document`: page content plus metadata. -/
structure Doc where
  page_content : String
  metadata : Metadata
deriving DecidableEq

/-- Python `str.strip()`: drop whitespace from both ends. -/
def pyStrip (s : String) : String :=
  String.mk (((s.data.dropWhile Char.isWhitespace).reverse.dropWhile
    Char.isWhitespace).reverse)

/-- `separator.join(docs)`. -/
def joinSep (sep : String) : List String → String
  | [] => ""
  | [d] => d
  | d :: e :: ds => d ++ sep ++ joinSep sep (e :: ds)

/-! ## Python substring splitting

`str.split(sep)` for a nonempty separator, by a fuel-driven left-to-right
scan (fuel `text.length` always suffices, since past each separator match
the remaining text is strictly shorter). -/

/-- If `p` is a prefix of `l`, the rest of `l`, else `none`. -/
def dropPre : List Char → List Char → Option (List Char)
  | [], l => some l
  | _ :: _, [] => none
  | p :: ps, c :: cs => if p = c then dropPre ps cs else none

/-- Scanner for `pySplit`: splits `rem` at each occurrence of `sep`. -/
def splitAux (sep : List Char) : Nat → List Char → List Char → List (List Char)
  | _, [], acc => [acc.reverse]
  | 0, rem, acc => [acc.reverse ++ rem]
  | fuel + 1, c :: cs, acc =>
    match dropPre sep (c :: cs) with
    | some rest => acc.reverse :: splitAux sep fuel rest []
    | none => splitAux sep fuel cs (c :: acc)

/-- Python `text.split(sep)` for nonempty `sep` (callers never pass `""`,
where Python raises). -/
def pySplit (sep text : String) : List String :=
  if sep = "" then [text]
  else (splitAux sep.data text.data.length text.data []).map String.mk

/-! ## langchain RecursiveCharacterTextSplitter

Model of `RecursiveCharacterTextSplitter` with the default
`keep_separator=True`, `is_separator_regex=False`, `strip_whitespace=True`
and `length_function=len`, as configured at src/main.py:425-430. -/

/-- `_split_text_with_regex(text, sep, keep_separator=True)`: the separator
stays glued to the front of the following piece; `""` splits into single
characters. -/
def splitWithSep (sep : String) (text : String) : List String :=
  if sep = "" then text.data.map (fun c => String.mk [c])
  else
    match pySplit sep text with
    | [] => []
    | h :: t => h :: t.map (fun s => sep ++ s)

/-- The separator-selection loop at the head of `_split_text`: the first
separator that is `""` or occurs in the text, paired with the remaining
separators; if none matches, the last separator with no remainder. -/
def chooseSep (text : String) : List String → String × List String
  | [] => ("", [])
  | s :: rest =>
    if s = "" then ("", [])
    else if 1 < (pySplit s text).length then (s, rest)
    else if rest.isEmpty then (s, [])
    else chooseSep text rest

/-- `_join_docs`: join, strip whitespace, and drop an empty result. -/
def joinDocs (sep : String) (docs : List String) : Option String :=
  let text := pyStrip (joinSep sep docs)
  if text = "" then none else some text

/-- The overlap-popping `while` loop inside `_merge_splits`: drop leading
pieces of the current document until the running total is within the
overlap and the incoming piece fits.  (Python would fault on an empty
`current_doc`; under the invariant `total = weighted length of cur` the
loop always stops at the empty list with `total = 0`.) -/
def popWhile (cs co sepLen dlen : Nat) : List String → Nat → List String × Nat
  | [], total => ([], total)
  | d :: ds, total =>
    if co < total ∨ (cs < total + dlen + sepLen ∧ 0 < total) then
      popWhile cs co sepLen dlen ds
        (total - (d.length + (if ds.isEmpty then 0 else sepLen)))
    else (d :: ds, total)

/-- Accumulator of `_merge_splits`: emitted docs, current doc, running
total length. -/
structure MergeAcc where
  docs : List String
  cur : List String
  total : Nat

/-- One iteration of the `for d in splits` loop of `_merge_splits`. -/
def mergeStep (cs co : Nat) (sep : String) (acc : MergeAcc) (d : String) :
    MergeAcc :=
  let dlen := d.length
  let sepLen := sep.length
  let acc1 : MergeAcc :=
    if cs < acc.total + dlen + (if acc.cur.isEmpty then 0 else sepLen) then
      if acc.cur.isEmpty then acc
      else
        let popped := popWhile cs co sepLen dlen acc.cur acc.total
        { docs := acc.docs ++ (joinDocs sep acc.cur).toList,
          cur := popped.1, total := popped.2 }
    else acc
  { docs := acc1.docs,
    cur := acc1.cur ++ [d],
    total := acc1.total + dlen + (if acc1.cur.isEmpty then 0 else sepLen) }

/-- `_merge_splits(splits, separator)`. -/
def mergeSplits (cs co : Nat) (sep : String) (splits : List String) :
    List String :=
  let acc := splits.foldl (mergeStep cs co sep) ⟨[], [], 0⟩
  acc.docs ++ (joinDocs sep acc.cur).toList

/-- The `for s in splits` loop of `_split_text`: short pieces accumulate
into `good` and are merged; a piece at least `cs` long flushes `good` and
is handled by `hb` (recursion on the remaining separators, or kept whole
when none remain). -/
def loopSplits (cs : Nat) (mrg : List String → List String)
    (hb : String → List String) : List String → List String → List String
  | good, [] => if good.isEmpty then [] else mrg good
  | good, s :: rest =>
    if s.length < cs then loopSplits cs mrg hb (good ++ [s]) rest
    else
      (if good.isEmpty then [] else mrg good) ++ hb s ++
        loopSplits cs mrg hb [] rest

/-- `_split_text(text, separators)`, fuelled by the number of separators
(the recursion always descends to a strict suffix of the separator
list).  Merging joins with `""` because `keep_separator=True`. -/
def splitTextRec (cs co : Nat) : Nat → List String → String → List String
  | 0, _, text => [text]
  | fuel + 1, seps, text =>
    let p := chooseSep text seps
    let splits := (splitWithSep p.1 text).filter (fun s => s ≠ "")
    let hb := fun s : String =>
      if p.2.isEmpty then [s] else splitTextRec cs co fuel p.2 s
    loopSplits cs (mergeSplits cs co "") hb [] splits

/-- The splitter configuration record. -/
structure RecursiveCharacterTextSplitter where
  chunk_size : Nat
  chunk_overlap : Nat
  separators : List String
deriving DecidableEq

/-- The splitter constructed at src/main.py:425-430. -/
def text_splitter : RecursiveCharacterTextSplitter :=
  { chunk_size := 1500
    chunk_overlap := 300
    separators := ["\n\n", "\n", ". ", " ", ""] }

/-- `splitter.split_text(text)`. -/
def split_text (sp : RecursiveCharacterTextSplitter) (text : String) :
    List String :=
  splitTextRec sp.chunk_size sp.chunk_overlap sp.separators.length
    sp.separators text

/-- `splitter.split_documents(docs)`: split each document's content, each
chunk inheriting the document's metadata. -/
def split_documents (sp : RecursiveCharacterTextSplitter) (docs : List Doc) :
    List Doc :=
  docs.flatMap (fun d =>
    (split_text sp d.page_content).map
      (fun t => { page_content := t, metadata := d.metadata }))

/-! ## PyMuPDF page model and `extract_pdf_content_advanced` -/

/-- A text span as returned by `page.get_text("dict")`: font size (a float,
modelled as a rational), style flags, text. -/
structure PySpan where
  size : ℚ
  flags : Nat
  text : String
deriving DecidableEq

/-- A line: its spans. -/
structure PyLine where
  spans : List PySpan
deriving DecidableEq

/-- A layout block: a text block has a `"lines"` key, an image block does
not. -/
inductive PyBlock where
  | textBlock (lines : List PyLine)
  | imageBlock
deriving DecidableEq

/-- A detected table: `table.extract()` result (rows of optional cells;
`none` models the call raising, which the code skips with a warning). -/
structure PyTable where
  extract : Option (List (List (Option String)))
deriving DecidableEq

/-- One parsed PDF page as the code reads it from fitz. -/
structure PyPage where
  text : String
  tables : List PyTable
  images : Nat
  blocks : List PyBlock
deriving DecidableEq

/-- One markdown-ish table row: `"| " + " | ".join(clean_row) + " |\n"`
with `None` cells as `""` (src/main.py:327-329). -/
def renderRow (row : List (Option String)) : String :=
  "| " ++ joinSep " | " (row.map (fun c => c.getD "")) ++ " |\n"

/-- One table block (src/main.py:319-332): labelled with its 1-based index;
an extraction failure or an empty extraction contributes nothing. -/
def renderTable (idx : Nat) (t : PyTable) : String :=
  match t.extract with
  | none => ""
  | some rows =>
    if rows.isEmpty then ""
    else "\n\n[표 " ++ toString (idx + 1) ++ "]\n" ++
      String.join (rows.map renderRow)

/-- `table_content` for a page. -/
def tableContent (tables : List PyTable) : String :=
  String.join (tables.enum.map (fun p => renderTable p.1 p.2))

/-- `image_content` for a page (src/main.py:335-338). -/
def imageContent (images : Nat) : String :=
  if images = 0 then ""
  else "\n\n[이 페이지에는 " ++ toString images ++
    "개의 이미지가 포함되어 있습니다]\n"

/-- One span of the structured-text pass (src/main.py:347-357): a span with
font size above 14 or the bold flag (bit `2^4`) becomes a heading marker,
any other span is emitted verbatim. -/
def renderSpan (sp : PySpan) : String :=
  if 14 < sp.size ∨ sp.flags &&& 2 ^ 4 ≠ 0 then
    "\n### " ++ sp.text ++ "\n"
  else sp.text

/-- The spans of a block, in layout order (an image block has none). -/
def blockSpans : PyBlock → List PySpan
  | .textBlock lines => lines.flatMap (fun l => l.spans)
  | .imageBlock => []

/-- `structured_text` for a page: spans rendered in order and
concatenated. -/
def structuredText (blocks : List PyBlock) : String :=
  String.join ((blocks.flatMap blockSpans).map renderSpan)

/-- `combined_content` for a page (the f-string at src/main.py:360-371,
then `.strip()`). -/
def combinedContent (pageNum : Nat) (pg : PyPage) : String :=
  pyStrip ("\n페이지 " ++ toString (pageNum + 1) ++ " 내용:\n\n" ++ pg.text ++
    "\n\n" ++ tableContent pg.tables ++ "\n\n" ++ imageContent pg.images ++
    "\n\n구조화된 텍스트:\n" ++ structuredText pg.blocks ++ "\n        ")

/-- The `Document` built for one page (src/main.py:374-383). -/
def extract_page (total pageNum : Nat) (pg : PyPage) : Doc :=
  { page_content := combinedContent pageNum pg
    metadata :=
      [("page", MVal.i (pageNum + 1)),
       ("has_tables", MVal.b (decide (0 < pg.tables.length))),
       ("table_count", MVal.i pg.tables.length),
       ("image_count", MVal.i pg.images),
       ("total_pages", MVal.i total)] }

/-- The page loop of `extract_pdf_content_advanced`, carrying the 0-based
page counter. -/
def extractPages (total : Nat) : Nat → List PyPage → List Doc
  | _, [] => []
  | n, pg :: rest => extract_page total n pg :: extractPages total (n + 1) rest

/-- `extract_pdf_content_advanced` (src/main.py:303-387) over a parsed
PDF. -/
def extract_pdf_content_advanced (pdf : List PyPage) : List Doc :=
  extractPages pdf.length 0 pdf

/-! ## Session state, environment, ingestion -/

/-- A conversation turn. -/
structure ChatMessage where
  role : String
  content : String
deriving DecidableEq

/-- An uploaded file: name and raw bytes (as a byte string). -/
structure UploadedFile where
  name : String
  content : String
deriving DecidableEq

/-- The Streamlit session state the pipeline touches. -/
structure AppState where
  messages : List ChatMessage
  database : Option (List Doc)
  vectorstore_data : Option (List Doc)
  processed_files : List String
  current_time : String
deriving DecidableEq

/-- External collaborators: embedding initialisation, `hashlib.md5`,
`fitz.open` plus page parsing (`Except.error` models the advanced
extraction raising), and `PyPDFLoader(...).load()`. -/
structure Env where
  embedding_ok : Bool
  md5 : String → String
  fitz_parse : String → Except String (List PyPage)
  basic_load : String → Except String (List Doc)

/-- `get_file_hash` (src/main.py:294-296): md5 hex digest of the bytes. -/
def get_file_hash (env : Env) (content : String) : String :=
  env.md5 content

/-- `is_file_already_processed` (src/main.py:298-301): FAISS metadata
queries are limited, so only the filename is consulted — the hash argument
is ignored. -/
def is_file_already_processed (st : AppState) (filename : String)
    (file_hash : String) : Bool :=
  st.processed_files.contains filename

/-- Python `set.add` on the processed-file set (membership model). -/
def addProcessed (l : List String) (name : String) : List String :=
  if l.contains name then l else l ++ [name]

/-- `FAISS.from_documents`: embeds and indexes the chunks; on an empty
list the real call raises (`embeddings[0]` — IndexError). -/
def FAISS.from_documents (splits : List Doc) : Except String (List Doc) :=
  if splits.isEmpty then Except.error "list index out of range"
  else Except.ok splits

/-- `db.merge_from(new)`: the merged docstore holds the old chunks then
the new ones. -/
def FAISS.merge_from (db new : List Doc) : List Doc :=
  db ++ new

/-- The index update at src/main.py:448-455: first add creates the store,
later adds merge into it. -/
def update_database (db : Option (List Doc)) (splits : List Doc) :
    Except String (List Doc) :=
  match db with
  | none => FAISS.from_documents splits
  | some l => Except.map (fun new => FAISS.merge_from l new)
      (FAISS.from_documents splits)

/-- The try/except at src/main.py:410-419: advanced extraction first, on
an exception the plain PyPDFLoader fallback, whose own exception
propagates. Returns the documents with the extraction-method label. -/
def extract_docs (env : Env) (content : String) :
    Except String (List Doc × String) :=
  match env.fitz_parse content with
  | Except.ok pages =>
    Except.ok (extract_pdf_content_advanced pages, "고급 추출 (표, 이미지, 구조 포함)")
  | Except.error _ =>
    match env.basic_load content with
    | Except.ok documents => Except.ok (documents, "기본 추출")
    | Except.error e => Except.error e

/-- The chunk built for split number `i` (0-based) at src/main.py:434-446:
file-level fields, defaults for the structural fields when the originating
document lacks them, and a 1-based sequential `chunk_id`. -/
def mkChunk (name fhash uploadTime method : String) (i : Nat) (split : Doc) :
    Doc :=
  { page_content := split.page_content
    metadata :=
      [("source", MVal.s name),
       ("file_hash", MVal.s fhash),
       ("upload_time", MVal.s uploadTime),
       ("page", Metadata.getD split.metadata "page" (MVal.i 1)),
       ("chunk_id", MVal.s (name ++ "_chunk_" ++ toString (i + 1))),
       ("has_tables", Metadata.getD split.metadata "has_tables" (MVal.b false)),
       ("table_count", Metadata.getD split.metadata "table_count" (MVal.i 0)),
       ("image_count", Metadata.getD split.metadata "image_count" (MVal.i 0)),
       ("extraction_method", MVal.s method)] }

/-- The `for i, split in enumerate(splits)` loop, from index `i`. -/
def assignFrom (name fhash uploadTime method : String) :
    Nat → List Doc → List Doc
  | _, [] => []
  | i, s :: rest =>
    mkChunk name fhash uploadTime method i s ::
      assignFrom name fhash uploadTime method (i + 1) rest

/-- The metadata-assignment step of `process_pdf_file`
(src/main.py:433-446). -/
def assign_chunk_metadata (name fhash uploadTime method : String)
    (splits : List Doc) : List Doc :=
  assignFrom name fhash uploadTime method 0 splits

/-- `sum(doc.metadata.get(key, 0) for doc in docs)` for an int-valued
key. -/
def totalOf (key : String) (docs : List Doc) : Int :=
  (docs.map (fun d =>
    match Metadata.getD d.metadata key (MVal.i 0) with
    | MVal.i n => n
    | _ => 0)).sum

/-- `process_pdf_file` (src/main.py:389-481): embedding check, dedup
check, extraction with fallback, chunking, metadata assignment, index
create-or-merge, session serialisation, processed-set update, and the
status string.  Exceptions surface as the per-file `❌` strings. -/
def process_pdf_file (env : Env) (st : AppState) (file : UploadedFile) :
    String × AppState :=
  if env.embedding_ok = false then
    ("❌ '" ++ file.name ++ "': 임베딩 모델 초기화 실패", st)
  else
    let file_hash := get_file_hash env file.content
    if is_file_already_processed st file.name file_hash then
      ("⚠️ '" ++ file.name ++ "'은 이미 처리된 파일입니다.", st)
    else
      match extract_docs env file.content with
      | Except.error e =>
        ("❌ '" ++ file.name ++ "': 처리 중 오류 발생 - " ++ e, st)
      | Except.ok (documents, extraction_method) =>
        if documents.isEmpty then
          ("❌ '" ++ file.name ++ "': PDF에서 텍스트를 추출할 수 없습니다.", st)
        else
          let splits := assign_chunk_metadata file.name file_hash
            st.current_time extraction_method
            (split_documents text_splitter documents)
          match update_database st.database splits with
          | Except.error e =>
            ("❌ '" ++ file.name ++ "': 처리 중 오류 발생 - " ++ e, st)
          | Except.ok db =>
            let totalTables := totalOf "table_count" documents
            let totalImages := totalOf "image_count" documents
            let tableInfo :=
              if 0 < totalTables then ", 표 " ++ toString totalTables ++ "개" else ""
            let imageInfo :=
              if 0 < totalImages then ", 이미지 " ++ toString totalImages ++ "개" else ""
            ("✅ '" ++ file.name ++ "': " ++ toString splits.length ++
              "개 청크로 처리 완료 (" ++ extraction_method ++ tableInfo ++
              imageInfo ++ ")",
             { st with
                database := some db
                vectorstore_data := some db
                processed_files := addProcessed st.processed_files file.name })

/-- The upload-batch loop (src/main.py:606-610): files processed strictly
in sequence, one result string each. -/
def process_uploaded_files (env : Env) :
    AppState → List UploadedFile → List String × AppState
  | st, [] => ([], st)
  | st, f :: rest =>
    let r := process_pdf_file env st f
    let rs := process_uploaded_files env r.2 rest
    (r.1 :: rs.1, rs.2)

/-! ## Answer generation -/

/-- Result of `get_ai_message`, instrumented with the number of language
model invocations (`llm.invoke` calls) the run performed. -/
structure AIResult where
  answer : String
  sources : List String
  llmCalls : Nat
deriving DecidableEq

/-- The grounding context (src/main.py:526). -/
def buildContext (docs : List Doc) : String :=
  joinSep "\n\n" (docs.map (fun d =>
    "[문서: " ++ pyStr (Metadata.getD d.metadata "source" (MVal.s "알 수 없음")) ++
      "]\n" ++ d.page_content))

/-- The citation string for one chunk (src/main.py:532-539): page appended
only when the page metadata is truthy and renders as a digit string. -/
def format_source (d : Doc) : String :=
  let source_name := pyStr (Metadata.getD d.metadata "source" (MVal.s "알 수 없는 출처"))
  let page_num := Metadata.getD d.metadata "page" (MVal.s "")
  if pyTruthy page_num && pyIsdigit (pyStr page_num) then
    source_name ++ " (페이지 " ++ pyStr page_num ++ ")"
  else source_name

/-- The citation loop (src/main.py:529-542): chunks with empty metadata
are skipped, formatted entries are appended in order unless already
present. -/
def collect_sources (docs : List Doc) : List String :=
  docs.foldl (fun acc d =>
    if d.metadata.isEmpty then acc
    else
      let s := format_source d
      if acc.contains s then acc else acc ++ [s]) []

/-- The filled prompt template (src/main.py:545-568). -/
def prompt_template (context question : String) : String :=
  "\n    당신은 cGMP 규정 전문가입니다. 다음 문서들을 바탕으로 질문에 정확하고 상세하게 답변해주세요.\n\n    문서 내용:\n    " ++
    context ++ "\n\n    질문: " ++ question ++
    "\n\n    답변 시 다음 사항을 준수해주세요:\n    1. 제공된 문서 내용만을 바탕으로 답변하세요\n    2. 구체적이고 실용적인 정보를 포함하세요\n    3. 단계별 절차가 있다면 순서대로 설명하세요\n    4. 문서에 없는 내용은 추측하지 마세요\n\n    답변:\n    "

/-- `get_ai_message` (src/main.py:492-575), parameterised by the FAISS
similarity retrieval (`Except.error` models the search raising) and by the
hosted model.  `llmCalls` counts model invocations. -/
def get_ai_message (retrieve : List Doc → String → Except String (List Doc))
    (llm : String → String) (st : AppState) (user_input : String) : AIResult :=
  match st.database with
  | none =>
    { answer := "데이터베이스가 초기화되지 않았습니다. 문서를 업로드해주세요."
      sources := []
      llmCalls := 0 }
  | some db =>
    match retrieve db user_input with
    | Except.error e =>
      { answer := "문서 검색 중 오류가 발생했습니다: " ++ e ++ "\n\n문서를 다시 업로드해주세요."
        sources := []
        llmCalls := 0 }
    | Except.ok [] =>
      { answer := "죄송합니다. 업로드된 문서에서 관련 정보를 찾을 수 없습니다. 문서가 올바르게 업로드되었는지 확인해주세요."
        sources := []
        llmCalls := 0 }
    | Except.ok (d :: ds) =>
      let context := buildContext (d :: ds)
      let sources := collect_sources (d :: ds)
      let formatted_prompt := prompt_template context user_input
      { answer := llm formatted_prompt
        sources := sources
        llmCalls := 1 }

/-- The conversation-clear handler (src/main.py:577-579): only the message
history is replaced. -/
def clear_conversation (st : AppState) : AppState :=
  { st with messages := [] }

/-! ## Spec-side definitions (for refinement comparison only)

These follow the words of the spec, not the source, and exist to be
compared with the source-derived definitions above. -/

/-- Keep the first occurrence of each string, in order. -/
def dedupFirst (l : List String) : List String :=
  l.foldl (fun acc s => if acc.contains s then acc else acc ++ [s]) []

/-- Claim C3's formatter, from the spec's words: `"<filename> (페이지
<page>)"` whenever the chunk's page metadata is a numeric value, else just
the filename. -/
def spec_format_source (d : Doc) : String :=
  let source_name := pyStr (Metadata.getD d.metadata "source" (MVal.s "알 수 없는 출처"))
  match Metadata.get d.metadata "page" with
  | some (MVal.i n) => source_name ++ " (페이지 " ++ toString n ++ ")"
  | _ => source_name

/-- Claim C3's citation list, from the spec's words: per-chunk formatted
strings, first-appearance order, duplicates removed. -/
def spec_sources (docs : List Doc) : List String :=
  dedupFirst (docs.map spec_format_source)

/-! ## Auxiliary measures used by the statements -/

/-- The joined length of a current document inside `_merge_splits`: piece
lengths plus one separator length between adjacent pieces. -/
def wlen (sepLen : Nat) : List String → Nat
  | [] => 0
  | [d] => d.length
  | d :: e :: ds => d.length + sepLen + wlen sepLen (e :: ds)

/-- The integer page number recorded in a document's metadata (0 when
absent or non-integer); used to state page ordering. -/
def pageNumInt (d : Doc) : Int :=
  match Metadata.get d.metadata "page" with
  | some (MVal.i n) => n
  | _ => 0

/-! ## Concrete fixtures used by witness statements -/

/-- A chunk whose page metadata is the numeric value 0, as the
basic-extraction fallback produces for a document's first page. -/
def docPage0 : Doc :=
  ⟨"t", [("source", MVal.s "a.pdf"), ("file_hash", MVal.s "h"),
    ("page", MVal.i 0)]⟩

/-- A chunk from page 2 of `b.pdf`. -/
def docB1 : Doc :=
  ⟨"t1", [("source", MVal.s "b.pdf"), ("page", MVal.i 2)]⟩

/-- A second chunk from page 2 of `b.pdf` with the same citation. -/
def docB2 : Doc :=
  ⟨"t2", [("source", MVal.s "b.pdf"), ("page", MVal.i 2)]⟩

/-- A split carrying no metadata at all. -/
def docBare : Doc :=
  ⟨"t", []⟩

/-- A one-page PDF whose only content is the word `hello`. -/
def pgHello : PyPage :=
  ⟨"hello", [], 0, []⟩

/-- An environment whose advanced extraction succeeds on `pgHello`. -/
def envOk : Env :=
  ⟨true, fun _ => "h", fun _ => Except.ok [pgHello],
    fun _ => Except.error "e"⟩

/-- An environment where both extractors raise. -/
def envFail : Env :=
  ⟨true, fun _ => "h", fun _ => Except.error "fitz",
    fun _ => Except.error "boom"⟩

/-- A fresh session state. -/
def stEmpty : AppState :=
  ⟨[], none, none, [], ""⟩

/-- A session state that has already processed `a.pdf`. -/
def stProcessed : AppState :=
  ⟨[], none, none, ["a.pdf"], ""⟩

/-- An upload named `a.pdf`. -/
def fileA : UploadedFile :=
  ⟨"a.pdf", "x"⟩

/-- A different upload under the same name `a.pdf`. -/
def fileA2 : UploadedFile :=
  ⟨"a.pdf", "y"⟩

/-- An upload named `b.pdf`. -/
def fileB : UploadedFile :=
  ⟨"b.pdf", "z"⟩

/-! ## Basic lemmas -/

theorem length_dropWhile_le (p : Char → Bool) (l : List Char) :
    (l.dropWhile p).length ≤ l.length := by
  induction l with
  | nil => simp [List.dropWhile]
  | cons a t ih =>
    by_cases h : p a <;> simp [List.dropWhile, h] <;> omega

theorem pyStrip_length_le (s : String) : (pyStrip s).length ≤ s.length := by
  show (((s.data.dropWhile _).reverse.dropWhile _).reverse).length ≤ s.data.length
  rw [List.length_reverse]
  calc ((s.data.dropWhile _).reverse.dropWhile _).length
      ≤ (s.data.dropWhile Char.isWhitespace).reverse.length :=
        length_dropWhile_le _ _
    _ = (s.data.dropWhile Char.isWhitespace).length := List.length_reverse _
    _ ≤ s.data.length := length_dropWhile_le _ _

theorem string_ne_empty_iff (s : String) : s ≠ "" ↔ 1 ≤ s.length := by
  cases s with
  | mk data =>
    cases data with
    | nil => simp [String.length]
    | cons c cs =>
      constructor
      · intro _
        show 1 ≤ (c :: cs).length
        simp
      · intro _ h
        simpa using congrArg String.data h

/-- Claim C10: clicking the conversation-clear button empties the message
history and leaves the vector index, the serialized vector-store session
data and the processed-file set unchanged. -/
theorem clear_conversation_frame (st : AppState) :
    (clear_conversation st).messages = [] ∧
    (clear_conversation st).database = st.database ∧
    (clear_conversation st).vectorstore_data = st.vectorstore_data ∧
    (clear_conversation st).processed_files = st.processed_files :=
  ⟨rfl, rfl, rfl, rfl⟩

/-- Claim C2: with an uninitialized index, or when the retrieval returns
zero chunks, `get_ai_message` answers with a fixed canned string and an
empty source list without invoking the model; the model is invoked only
when at least one chunk was retrieved. -/
theorem get_ai_message_grounding
    (retrieve : List Doc → String → Except String (List Doc))
    (llm : String → String) (st : AppState) (q : String) :
    (st.database = none →
      get_ai_message retrieve llm st q =
        { answer := "데이터베이스가 초기화되지 않았습니다. 문서를 업로드해주세요."
          sources := [], llmCalls := 0 }) ∧
    (∀ db, st.database = some db → retrieve db q = Except.ok [] →
      get_ai_message retrieve llm st q =
        { answer := "죄송합니다. 업로드된 문서에서 관련 정보를 찾을 수 없습니다. 문서가 올바르게 업로드되었는지 확인해주세요."
          sources := [], llmCalls := 0 }) ∧
    ((get_ai_message retrieve llm st q).llmCalls ≠ 0 →
      ∃ db docs, st.database = some db ∧ retrieve db q = Except.ok docs ∧
        docs ≠ []) := by
  refine ⟨?_, ?_, ?_⟩
  · intro h
    simp [get_ai_message, h]
  · intro db hdb hret
    simp [get_ai_message, hdb, hret]
  · intro h
    cases hdb : st.database with
    | none => simp [get_ai_message, hdb] at h
    | some db =>
      cases hret : retrieve db q with
      | error e => simp [get_ai_message, hdb, hret] at h
      | ok docs =>
        cases docs with
        | nil => simp [get_ai_message, hdb, hret] at h
        | cons d ds => exact ⟨db, d :: ds, rfl, hret, by simp⟩

/-- Witness for C2: a retrieval that returns zero chunks yields the fixed
no-information answer with no sources and no model call. -/
theorem get_ai_message_grounding_witness :
    get_ai_message (fun _ _ => Except.ok []) (fun _ => "a")
      { messages := [], database := some [], vectorstore_data := none
        processed_files := [], current_time := "" } "q" =
      { answer := "죄송합니다. 업로드된 문서에서 관련 정보를 찾을 수 없습니다. 문서가 올바르게 업로드되었는지 확인해주세요."
        sources := [], llmCalls := 0 } :=
  (get_ai_message_grounding (fun _ _ => Except.ok []) (fun _ => "a")
    { messages := [], database := some [], vectorstore_data := none
      processed_files := [], current_time := "" } "q").2.1 [] rfl rfl

/-- Claim C5: adding a file's chunks needs no pre-existing index — with no
index the first add creates one from exactly the file's chunks, and with
an existing index the chunks are merged in, every previously indexed chunk
remaining present. -/
theorem update_database_merge (db : Option (List Doc)) (splits : List Doc)
    (h : splits ≠ []) :
    update_database none splits = Except.ok splits ∧
    (∀ l, db = some l →
      update_database db splits = Except.ok (l ++ splits) ∧
      ∀ d ∈ l, d ∈ l ++ splits) := by
  have hne : splits.isEmpty = false := by
    simpa [List.isEmpty_iff] using h
  refine ⟨?_, ?_⟩
  · simp [update_database, FAISS.from_documents, hne]
  · intro l hl
    subst hl
    refine ⟨?_, ?_⟩
    · simp [update_database, FAISS.from_documents, FAISS.merge_from, hne,
        Except.map]
    · intro d hd
      exact List.mem_append_left _ hd

/-- Witness for C5: merging one chunk into a one-chunk index keeps the old
chunk and appends the new one. -/
theorem update_database_merge_witness :
    update_database (some [{ page_content := "a", metadata := [] }])
        [{ page_content := "b", metadata := [] }] =
      Except.ok [{ page_content := "a", metadata := [] },
        { page_content := "b", metadata := [] }] ∧
    { page_content := "a", metadata := [] } ∈
      ([{ page_content := "a", metadata := [] },
        { page_content := "b", metadata := [] }] : List Doc) := by
  have h := (update_database_merge
    (some [{ page_content := "a", metadata := [] }])
    [{ page_content := "b", metadata := [] }] (by decide)).2
    [{ page_content := "a", metadata := [] }] rfl
  exact ⟨h.1, h.2 _ (by decide)⟩

/-- Claim C8: in the structured-text pass a span is rendered as a heading
marker exactly when its font size exceeds 14 or the bold bit `2^4` of its
flags is set; otherwise it is emitted verbatim. -/
theorem span_heading_iff (sp : PySpan) :
    (renderSpan sp = "\n### " ++ sp.text ++ "\n" ↔
      (14 < sp.size ∨ sp.flags &&& 2 ^ 4 ≠ 0)) ∧
    (¬(14 < sp.size ∨ sp.flags &&& 2 ^ 4 ≠ 0) → renderSpan sp = sp.text) := by
  constructor
  · constructor
    · intro heq
      by_contra h
      rw [renderSpan, if_neg h] at heq
      have hlen := congrArg String.length heq
      rw [String.length_append, String.length_append] at hlen
      have h5 : ("\n### " : String).length = 5 := rfl
      have h1 : ("\n" : String).length = 1 := rfl
      omega
    · intro h
      rw [renderSpan, if_pos h]
  · intro h
    rw [renderSpan, if_neg h]

/-- Witness for C8: a 12pt non-bold span is emitted verbatim. -/
theorem span_heading_iff_witness :
    renderSpan { size := 12, flags := 0, text := "hi" } = "hi" :=
  (span_heading_iff { size := 12, flags := 0, text := "hi" }).2 (by decide)

/-! ## The citation list (C3) -/

theorem mem_insStep (acc : List String) (s x : String)
    (h : x ∈ acc ∨ x = s) :
    x ∈ (if acc.contains s then acc else acc ++ [s]) := by
  by_cases hc : acc.contains s = true
  · rw [if_pos hc]
    rcases h with h | h
    · exact h
    · subst h; simpa using hc
  · rw [if_neg hc]
    rcases h with h | h
    · exact List.mem_append_left _ h
    · subst h; exact List.mem_append_right _ (by simp)

theorem foldl_ins_mem :
    ∀ (l acc : List String) (x : String), x ∈ acc ∨ x ∈ l →
      x ∈ l.foldl (fun acc s => if acc.contains s then acc else acc ++ [s])
        acc := by
  intro l
  induction l with
  | nil =>
    intro acc x h
    simpa using h.resolve_right (by simp)
  | cons a t ih =>
    intro acc x h
    simp only [List.foldl_cons]
    apply ih
    rcases h with h | h
    · exact Or.inl (mem_insStep acc a x (Or.inl h))
    · rcases List.mem_cons.mp h with h | h
      · exact Or.inl (mem_insStep acc a x (Or.inr h))
      · exact Or.inr h

theorem foldl_ins_nodup :
    ∀ (l acc : List String), acc.Nodup →
      (l.foldl (fun acc s => if acc.contains s then acc else acc ++ [s])
        acc).Nodup := by
  intro l
  induction l with
  | nil => intro acc h; simpa using h
  | cons a t ih =>
    intro acc h
    simp only [List.foldl_cons]
    apply ih
    by_cases hc : acc.contains a = true
    · rw [if_pos hc]; exact h
    · rw [if_neg hc]
      have ha : a ∉ acc := by simpa using hc
      simp [List.nodup_append, h, ha]

theorem collect_sources_foldl :
    ∀ (docs : List Doc) (acc : List String), (∀ d ∈ docs, d.metadata ≠ []) →
      docs.foldl (fun acc d =>
        if d.metadata.isEmpty then acc
        else
          let s := format_source d
          if acc.contains s then acc else acc ++ [s]) acc =
      (docs.map format_source).foldl
        (fun acc s => if acc.contains s then acc else acc ++ [s]) acc := by
  intro docs
  induction docs with
  | nil => intro acc _; rfl
  | cons a t ih =>
    intro acc h
    have ha : a.metadata.isEmpty = false := by
      simpa [List.isEmpty_iff] using h a (by simp)
    simp only [List.foldl_cons, List.map_cons, ha, Bool.false_eq_true,
      if_false]
    exact ih _ (fun d hd => h d (by simp [hd]))

/-- Counterexample to C3 as stated: a retrieved chunk whose page metadata
is the numeric value 0 (as the basic-extraction path produces for the
first page) is cited without the page suffix, because Python's `if
page_num and ...` treats 0 as falsy. -/
theorem citation_numeric_page_counterexample :
    collect_sources [docPage0] = ["a.pdf"] ∧
    spec_format_source docPage0 = "a.pdf (페이지 0)" ∧
    collect_sources [docPage0] ≠ spec_sources [docPage0] := by
  refine ⟨by decide, by decide, by decide⟩

/-- Claim C3 (amended): for chunks with nonempty metadata the citation
list equals the per-chunk formatted strings (page suffix exactly when the
page value is truthy and renders as a digit string) deduplicated keeping
first appearance; every chunk's formatted string occurs, and no two
entries are equal. -/
theorem citation_list_amended (docs : List Doc)
    (h : ∀ d ∈ docs, d.metadata ≠ []) :
    collect_sources docs = dedupFirst (docs.map format_source) ∧
    (∀ d ∈ docs, format_source d ∈ collect_sources docs) ∧
    (collect_sources docs).Nodup := by
  have heq : collect_sources docs = dedupFirst (docs.map format_source) :=
    collect_sources_foldl docs [] h
  refine ⟨heq, ?_, ?_⟩
  · intro d hd
    rw [heq]
    exact foldl_ins_mem (docs.map format_source) [] (format_source d)
      (Or.inr (List.mem_map_of_mem _ hd))
  · rw [heq]
    exact foldl_ins_nodup (docs.map format_source) [] (by simp)

/-- Witness for C3 (amended): two chunks from page 2 of one file collapse
into one deduplicated citation. -/
theorem citation_list_amended_witness :
    collect_sources [docB1, docB2] =
      dedupFirst ([docB1, docB2].map format_source) ∧
    (∀ d ∈ [docB1, docB2],
      format_source d ∈ collect_sources [docB1, docB2]) ∧
    (collect_sources [docB1, docB2]).Nodup :=
  citation_list_amended [docB1, docB2] (by decide)

/-! ## Chunk metadata assignment (C9) -/

theorem assignFrom_mem (n f t m : String) :
    ∀ (splits : List Doc) (i : Nat) (d : Doc),
      d ∈ assignFrom n f t m i splits → ∃ j s, d = mkChunk n f t m j s := by
  intro splits
  induction splits with
  | nil =>
    intro i d h
    simp [assignFrom] at h
  | cons a t2 ih =>
    intro i d h
    simp only [assignFrom] at h
    rcases List.mem_cons.mp h with h | h
    · exact ⟨i, a, h⟩
    · exact ih (i + 1) d h

theorem assignFrom_map_chunk_id (n f t m : String) :
    ∀ (splits : List Doc) (i : Nat),
      (assignFrom n f t m i splits).map
          (fun d => Metadata.get d.metadata "chunk_id") =
        (List.range' i splits.length).map
          (fun j => some (MVal.s (n ++ "_chunk_" ++ toString (j + 1)))) := by
  intro splits
  induction splits with
  | nil => intro i; simp [assignFrom, List.range']
  | cons a t2 ih =>
    intro i
    simp only [assignFrom, List.map_cons, List.length_cons, List.range',
      List.cons.injEq]
    exact ⟨rfl, ih (i + 1)⟩

theorem assignFrom_zip (n f t m : String) :
    ∀ (splits : List Doc) (i : Nat) (p : Doc × Doc),
      p ∈ (assignFrom n f t m i splits).zip splits →
        ∃ j, p.1 = mkChunk n f t m j p.2 := by
  intro splits
  induction splits with
  | nil =>
    intro i p h
    simp [assignFrom] at h
  | cons a t2 ih =>
    intro i p h
    simp only [assignFrom, List.zip_cons_cons] at h
    rcases List.mem_cons.mp h with h | h
    · refine ⟨i, ?_⟩
      rw [h]
    · exact ih (i + 1) p h

/-- Claim C9: all chunks of one file carry that file's source name and
content hash; `chunk_id` is `"<filename>_chunk_<i>"` with `i` sequential
and 1-based; and a chunk whose originating document lacks the structural
keys gets `page=1`, `has_tables=False`, `table_count=0`,
`image_count=0`. -/
theorem chunk_metadata_assignment (name fhash time method : String)
    (splits : List Doc) :
    (∀ d ∈ assign_chunk_metadata name fhash time method splits,
      Metadata.get d.metadata "source" = some (MVal.s name) ∧
      Metadata.get d.metadata "file_hash" = some (MVal.s fhash)) ∧
    ((assign_chunk_metadata name fhash time method splits).map
        (fun d => Metadata.get d.metadata "chunk_id") =
      (List.range splits.length).map
        (fun j => some (MVal.s (name ++ "_chunk_" ++ toString (j + 1))))) ∧
    (∀ p ∈ (assign_chunk_metadata name fhash time method splits).zip splits,
      (Metadata.get p.2.metadata "page" = none →
        Metadata.get p.1.metadata "page" = some (MVal.i 1)) ∧
      (Metadata.get p.2.metadata "has_tables" = none →
        Metadata.get p.1.metadata "has_tables" = some (MVal.b false)) ∧
      (Metadata.get p.2.metadata "table_count" = none →
        Metadata.get p.1.metadata "table_count" = some (MVal.i 0)) ∧
      (Metadata.get p.2.metadata "image_count" = none →
        Metadata.get p.1.metadata "image_count" = some (MVal.i 0))) := by
  refine ⟨?_, ?_, ?_⟩
  · intro d hd
    rcases assignFrom_mem name fhash time method splits 0 d hd with ⟨j, s, rfl⟩
    exact ⟨rfl, rfl⟩
  · rw [List.range_eq_range']
    exact assignFrom_map_chunk_id name fhash time method splits 0
  · intro p hp
    rcases assignFrom_zip name fhash time method splits 0 p hp with ⟨j, hj⟩
    refine ⟨?_, ?_, ?_, ?_⟩ <;> intro hnone <;> rw [hj]
    · show some (Metadata.getD p.2.metadata "page" (MVal.i 1)) = _
      rw [Metadata.getD, hnone]
      rfl
    · show some (Metadata.getD p.2.metadata "has_tables" (MVal.b false)) = _
      rw [Metadata.getD, hnone]
      rfl
    · show some (Metadata.getD p.2.metadata "table_count" (MVal.i 0)) = _
      rw [Metadata.getD, hnone]
      rfl
    · show some (Metadata.getD p.2.metadata "image_count" (MVal.i 0)) = _
      rw [Metadata.getD, hnone]
      rfl

/-- Witness for C9: one structurally bare split gets the defaults and the
1-based chunk id. -/
theorem chunk_metadata_assignment_witness :
    Metadata.get (mkChunk "a.pdf" "h" "" "기본 추출" 0 docBare,
        docBare).1.metadata "page" = some (MVal.i 1) ∧
    Metadata.get (mkChunk "a.pdf" "h" "" "기본 추출" 0 docBare,
        docBare).1.metadata "has_tables" = some (MVal.b false) ∧
    Metadata.get (mkChunk "a.pdf" "h" "" "기본 추출" 0 docBare,
        docBare).1.metadata "table_count" = some (MVal.i 0) ∧
    Metadata.get (mkChunk "a.pdf" "h" "" "기본 추출" 0 docBare,
        docBare).1.metadata "image_count" = some (MVal.i 0) := by
  have h := (chunk_metadata_assignment "a.pdf" "h" "" "기본 추출" [docBare]).2.2
    (mkChunk "a.pdf" "h" "" "기본 추출" 0 docBare, docBare) (by decide)
  exact ⟨h.1 (by decide), h.2.1 (by decide), h.2.2.1 (by decide),
    h.2.2.2 (by decide)⟩

/-! ## The structural extractor (C4) -/

theorem extractPages_length (total : Nat) :
    ∀ (pdf : List PyPage) (n : Nat),
      (extractPages total n pdf).length = pdf.length := by
  intro pdf
  induction pdf with
  | nil => intro n; rfl
  | cons pg rest ih =>
    intro n
    simp [extractPages, ih (n + 1)]

theorem extractPages_map_page (total : Nat) :
    ∀ (pdf : List PyPage) (n : Nat),
      (extractPages total n pdf).map
          (fun d => Metadata.get d.metadata "page") =
        (List.range' n pdf.length).map (fun i : Nat => some (MVal.i (i + 1))) := by
  intro pdf
  induction pdf with
  | nil => intro n; rfl
  | cons pg rest ih =>
    intro n
    simp only [extractPages, List.map_cons, List.length_cons, List.range',
      List.cons.injEq]
    exact ⟨rfl, ih (n + 1)⟩

theorem extractPages_map_pageNumInt (total : Nat) :
    ∀ (pdf : List PyPage) (n : Nat),
      (extractPages total n pdf).map pageNumInt =
        (List.range' n pdf.length).map (fun i : Nat => (i : Int) + 1) := by
  intro pdf
  induction pdf with
  | nil => intro n; rfl
  | cons pg rest ih =>
    intro n
    simp only [extractPages, List.map_cons, List.length_cons, List.range',
      List.cons.injEq]
    exact ⟨rfl, ih (n + 1)⟩

theorem extractPages_map_tables (total : Nat) :
    ∀ (pdf : List PyPage) (n : Nat),
      (extractPages total n pdf).map
          (fun d => Metadata.get d.metadata "has_tables") =
        pdf.map (fun pg => some (MVal.b (decide (0 < pg.tables.length)))) := by
  intro pdf
  induction pdf with
  | nil => intro n; rfl
  | cons pg rest ih =>
    intro n
    simp only [extractPages, List.map_cons, List.cons.injEq]
    exact ⟨rfl, ih (n + 1)⟩

theorem extractPages_map_table_count (total : Nat) :
    ∀ (pdf : List PyPage) (n : Nat),
      (extractPages total n pdf).map
          (fun d => Metadata.get d.metadata "table_count") =
        pdf.map (fun pg => some (MVal.i pg.tables.length)) := by
  intro pdf
  induction pdf with
  | nil => intro n; rfl
  | cons pg rest ih =>
    intro n
    simp only [extractPages, List.map_cons, List.cons.injEq]
    exact ⟨rfl, ih (n + 1)⟩

theorem extractPages_map_image_count (total : Nat) :
    ∀ (pdf : List PyPage) (n : Nat),
      (extractPages total n pdf).map
          (fun d => Metadata.get d.metadata "image_count") =
        pdf.map (fun pg => some (MVal.i pg.images)) := by
  intro pdf
  induction pdf with
  | nil => intro n; rfl
  | cons pg rest ih =>
    intro n
    simp only [extractPages, List.map_cons, List.cons.injEq]
    exact ⟨rfl, ih (n + 1)⟩

theorem extractPages_map_total (total : Nat) :
    ∀ (pdf : List PyPage) (n : Nat),
      (extractPages total n pdf).map
          (fun d => Metadata.get d.metadata "total_pages") =
        pdf.map (fun _ => some (MVal.i total)) := by
  intro pdf
  induction pdf with
  | nil => intro n; rfl
  | cons pg rest ih =>
    intro n
    simp only [extractPages, List.map_cons, List.cons.injEq]
    exact ⟨rfl, ih (n + 1)⟩

theorem range'_lower : ∀ (k n x : Nat), x ∈ List.range' n k → n ≤ x := by
  intro k
  induction k with
  | zero =>
    intro n x h
    simp [List.range'] at h
  | succ k ih =>
    intro n x h
    simp only [List.range'] at h
    rcases List.mem_cons.mp h with h | h
    · omega
    · have := ih (n + 1) x h
      omega

theorem range'_map_int_pairwise : ∀ (k n : Nat),
    (((List.range' n k).map (fun i : Nat => (i : Int) + 1)).Pairwise (· < ·)) := by
  intro k
  induction k with
  | zero => intro n; simp [List.range']
  | succ k ih =>
    intro n
    simp only [List.range', List.map_cons]
    refine List.Pairwise.cons ?_ (ih (n + 1))
    intro b hb
    simp only [List.mem_map] at hb
    obtain ⟨x, hx, rfl⟩ := hb
    have := range'_lower k (n + 1) x hx
    omega

/-- Claim C4: the advanced extractor returns one `Document` per page, in
strictly increasing 1-based page order, each carrying the page number,
`has_tables`, `table_count`, `image_count` and `total_pages = N`. -/
theorem extract_pdf_per_page (pdf : List PyPage) :
    (extract_pdf_content_advanced pdf).length = pdf.length ∧
    (extract_pdf_content_advanced pdf).map
        (fun d => Metadata.get d.metadata "page") =
      (List.range pdf.length).map (fun i : Nat => some (MVal.i (i + 1))) ∧
    ((extract_pdf_content_advanced pdf).map pageNumInt).Pairwise (· < ·) ∧
    (extract_pdf_content_advanced pdf).map
        (fun d => Metadata.get d.metadata "has_tables") =
      pdf.map (fun pg => some (MVal.b (decide (0 < pg.tables.length)))) ∧
    (extract_pdf_content_advanced pdf).map
        (fun d => Metadata.get d.metadata "table_count") =
      pdf.map (fun pg => some (MVal.i pg.tables.length)) ∧
    (extract_pdf_content_advanced pdf).map
        (fun d => Metadata.get d.metadata "image_count") =
      pdf.map (fun pg => some (MVal.i pg.images)) ∧
    (extract_pdf_content_advanced pdf).map
        (fun d => Metadata.get d.metadata "total_pages") =
      pdf.map (fun _ => some (MVal.i pdf.length)) := by
  refine ⟨extractPages_length pdf.length pdf 0, ?_, ?_,
    extractPages_map_tables pdf.length pdf 0,
    extractPages_map_table_count pdf.length pdf 0,
    extractPages_map_image_count pdf.length pdf 0,
    extractPages_map_total pdf.length pdf 0⟩
  · rw [List.range_eq_range']
    exact extractPages_map_page pdf.length pdf 0
  · rw [show (extract_pdf_content_advanced pdf).map pageNumInt =
      (List.range' 0 pdf.length).map (fun i : Nat => (i : Int) + 1) from
      extractPages_map_pageNumInt pdf.length pdf 0]
    exact range'_map_int_pairwise pdf.length 0

/-! ## Ingestion control flow (C1, C7) -/

theorem process_skip (env : Env) (st : AppState) (f : UploadedFile)
    (hemb : env.embedding_ok = true) (hmem : f.name ∈ st.processed_files) :
    process_pdf_file env st f =
      ("⚠️ '" ++ f.name ++ "'은 이미 처리된 파일입니다.", st) := by
  have hc : st.processed_files.contains f.name = true := by
    simpa using hmem
  simp only [process_pdf_file, hemb, Bool.true_eq_false, if_false,
    is_file_already_processed, hc, if_true]

theorem process_cases (env : Env) (st : AppState) (f : UploadedFile) :
    (process_pdf_file env st f).2 = st ∨
    (env.embedding_ok = true ∧
      (process_pdf_file env st f).2.processed_files =
        st.processed_files ++ [f.name] ∧
      f.name ∈ (process_pdf_file env st f).2.processed_files) := by
  by_cases h1 : env.embedding_ok = false
  · left
    simp [process_pdf_file, h1]
  · have hemb : env.embedding_ok = true := by simpa using h1
    by_cases h2 : f.name ∈ st.processed_files
    · left
      simp [process_pdf_file, hemb, is_file_already_processed, h2]
    · rcases h3 : extract_docs env f.content with e | pr
      · left
        simp [process_pdf_file, hemb, is_file_already_processed, h2, h3]
      · rcases pr with ⟨docs, m⟩
        by_cases h4 : docs.isEmpty
        · left
          simp [process_pdf_file, hemb, is_file_already_processed, h2, h3, h4]
        · rcases h5 : update_database st.database
              (assign_chunk_metadata f.name (get_file_hash env f.content)
                st.current_time m (split_documents text_splitter docs))
            with e | db
          · left
            simp [process_pdf_file, hemb, is_file_already_processed, h2, h3,
              h4, h5]
          · right
            refine ⟨hemb, ?_, ?_⟩
            · simp [process_pdf_file, hemb, is_file_already_processed, h2, h3,
                h4, h5, addProcessed]
            · simp [process_pdf_file, hemb, is_file_already_processed, h2, h3,
                h4, h5, addProcessed]

/-- Claim C1: the deduplication check answers by filename membership in the
session's processed-file set, ignoring the content hash; re-ingesting a
file whose first ingestion indexed chunks is reported as a skip and leaves
the state (hence the indexed chunks) unchanged, also when the bytes under
that filename changed. -/
theorem dedup_by_filename_only (env : Env) (f f2 : UploadedFile)
    (st : AppState) (h1 h2 : String) (hname : f2.name = f.name) :
    (is_file_already_processed st f.name h1 =
      is_file_already_processed st f.name h2) ∧
    (is_file_already_processed st f.name h1 = true ↔
      f.name ∈ st.processed_files) ∧
    (env.embedding_ok = true → f2.name ∈ st.processed_files →
      process_pdf_file env st f2 =
        ("⚠️ '" ++ f2.name ++ "'은 이미 처리된 파일입니다.", st)) ∧
    ((process_pdf_file env st f).2.database ≠ st.database →
      process_pdf_file env (process_pdf_file env st f).2 f2 =
        ("⚠️ '" ++ f2.name ++ "'은 이미 처리된 파일입니다.",
          (process_pdf_file env st f).2)) := by
  refine ⟨rfl, by simp [is_file_already_processed], ?_, ?_⟩
  · intro hemb hmem
    exact process_skip env st f2 hemb hmem
  · intro hdb
    rcases process_cases env st f with hst | ⟨hemb, hpf, hmem⟩
    · exact absurd (by rw [hst]) hdb
    · exact process_skip env _ f2 hemb (by rw [hname]; exact hmem)

/-- Witness for C1: after a successful ingestion of `a.pdf`, re-uploading
different bytes under the name `a.pdf` is skipped with the state
unchanged. -/
theorem dedup_by_filename_only_witness :
    process_pdf_file envOk (process_pdf_file envOk stEmpty fileA).2 fileA2 =
      ("⚠️ '" ++ fileA2.name ++ "'은 이미 처리된 파일입니다.",
        (process_pdf_file envOk stEmpty fileA).2) :=
  (dedup_by_filename_only envOk fileA fileA2 stEmpty "h1" "h2" rfl).2.2.2
    (by decide)

/-- Claim C7: an exception in the advanced extraction falls back to the
basic loader with the basic label; a file whose processing fails entirely
yields a per-file error string, the state is unchanged, and the rest of
the batch is still processed in sequence. -/
theorem extraction_fallback_batch (env : Env) (st : AppState)
    (f : UploadedFile) (rest : List UploadedFile) (e1 e2 : String)
    (docs : List Doc) :
    (env.fitz_parse f.content = Except.error e1 →
      env.basic_load f.content = Except.ok docs →
      extract_docs env f.content = Except.ok (docs, "기본 추출")) ∧
    (env.embedding_ok = true → f.name ∉ st.processed_files →
      env.fitz_parse f.content = Except.error e1 →
      env.basic_load f.content = Except.error e2 →
      process_pdf_file env st f =
        ("❌ '" ++ f.name ++ "': 처리 중 오류 발생 - " ++ e2, st) ∧
      process_uploaded_files env st (f :: rest) =
        (("❌ '" ++ f.name ++ "': 처리 중 오류 발생 - " ++ e2) ::
            (process_uploaded_files env st rest).1,
          (process_uploaded_files env st rest).2)) := by
  constructor
  · intro hf hb
    simp [extract_docs, hf, hb]
  · intro hemb hmem hf hb
    have hext : extract_docs env f.content = Except.error e2 := by
      simp [extract_docs, hf, hb]
    have hp : process_pdf_file env st f =
        ("❌ '" ++ f.name ++ "': 처리 중 오류 발생 - " ++ e2, st) := by
      simp [process_pdf_file, hemb, is_file_already_processed, hmem, hext]
    refine ⟨hp, ?_⟩
    simp [process_uploaded_files, hp]

/-- Witness for C7: with both extractors raising, `a.pdf` reports a
per-file error, and the batch goes on to process `b.pdf`. -/
theorem extraction_fallback_batch_witness :
    process_pdf_file envFail stEmpty fileA =
      ("❌ '" ++ fileA.name ++ "': 처리 중 오류 발생 - " ++ "boom", stEmpty) ∧
    process_uploaded_files envFail stEmpty (fileA :: [fileB]) =
      (("❌ '" ++ fileA.name ++ "': 처리 중 오류 발생 - " ++ "boom") ::
          (process_uploaded_files envFail stEmpty [fileB]).1,
        (process_uploaded_files envFail stEmpty [fileB]).2) :=
  (extraction_fallback_batch envFail stEmpty fileA [fileB] "fitz" "boom"
    []).2 rfl (by decide) rfl rfl

/-! ## The chunk-size bound (C6) -/

theorem wlen_cons (k : Nat) (d : String) (ds : List String) :
    wlen k (d :: ds) =
      d.length + (if ds.isEmpty then 0 else k) + wlen k ds := by
  cases ds with
  | nil => simp [wlen]
  | cons e es => simp [wlen]

theorem wlen_append_singleton (k : Nat) (d : String) :
    ∀ l, wlen k (l ++ [d]) =
      wlen k l + d.length + (if l.isEmpty then 0 else k) := by
  intro l
  induction l with
  | nil => simp [wlen]
  | cons a as ih =>
    cases as with
    | nil =>
      simp [wlen]
      omega
    | cons b bs =>
      simp only [List.cons_append] at ih ⊢
      rw [show wlen k (a :: b :: (bs ++ [d])) =
        a.length + k + wlen k (b :: (bs ++ [d])) from rfl]
      rw [ih]
      rw [show wlen k (a :: b :: bs) = a.length + k + wlen k (b :: bs)
        from rfl]
      simp
      omega

theorem wlen_pos (k : Nat) (l : List String)
    (h : ∀ x ∈ l, 1 ≤ x.length) (hne : l ≠ []) : 1 ≤ wlen k l := by
  cases l with
  | nil => exact absurd rfl hne
  | cons d ds =>
    have hd := h d (by simp)
    cases ds with
    | nil => simpa [wlen] using hd
    | cons e es => simp [wlen]; omega

theorem joinSep_length (sep : String) :
    ∀ l, (joinSep sep l).length = wlen sep.length l := by
  intro l
  induction l with
  | nil => rfl
  | cons d ds ih =>
    cases ds with
    | nil => rfl
    | cons e es =>
      show (d ++ sep ++ joinSep sep (e :: es)).length =
        d.length + sep.length + wlen sep.length (e :: es)
      rw [String.length_append, String.length_append, ih]

theorem joinDocs_le (sep : String) (l : List String) (t : String)
    (h : joinDocs sep l = some t) : t.length ≤ wlen sep.length l := by
  simp only [joinDocs] at h
  by_cases he : pyStrip (joinSep sep l) = ""
  · simp [he] at h
  · rw [if_neg he] at h
    have ht : pyStrip (joinSep sep l) = t := Option.some.inj h
    rw [← ht]
    calc (pyStrip (joinSep sep l)).length
        ≤ (joinSep sep l).length := pyStrip_length_le _
      _ = wlen sep.length l := joinSep_length sep l

theorem popWhile_spec (cs co k dlen : Nat) :
    ∀ (cur : List String) (total : Nat),
      total = wlen k cur → (∀ x ∈ cur, 1 ≤ x.length) →
      (popWhile cs co k dlen cur total).2 =
          wlen k (popWhile cs co k dlen cur total).1 ∧
        (∀ x ∈ (popWhile cs co k dlen cur total).1, x ∈ cur) ∧
        ((popWhile cs co k dlen cur total).1 = [] ∨
          ((popWhile cs co k dlen cur total).2 ≤ co ∧
            ¬(cs < (popWhile cs co k dlen cur total).2 + dlen + k ∧
              0 < (popWhile cs co k dlen cur total).2))) := by
  intro cur
  induction cur with
  | nil =>
    intro total h1 _
    refine ⟨?_, by simp [popWhile], Or.inl rfl⟩
    simpa [popWhile, wlen] using h1
  | cons d ds ih =>
    intro total h1 h2
    by_cases hcond : co < total ∨ (cs < total + dlen + k ∧ 0 < total)
    · have hstep : popWhile cs co k dlen (d :: ds) total =
          popWhile cs co k dlen ds
            (total - (d.length + (if ds.isEmpty then 0 else k))) := by
        simp [popWhile, hcond]
      rw [hstep]
      have hds : total - (d.length + (if ds.isEmpty then 0 else k)) =
          wlen k ds := by
        rw [wlen_cons] at h1
        omega
      obtain ⟨a, b, c⟩ := ih _ hds (fun x hx => h2 x (by simp [hx]))
      exact ⟨a, fun x hx => by simp [b x hx], c⟩
    · have hstep : popWhile cs co k dlen (d :: ds) total = (d :: ds, total) := by
        simp [popWhile, hcond]
      rw [hstep]
      rcases not_or.mp hcond with ⟨hA, hBC⟩
      exact ⟨h1, fun x hx => hx, Or.inr ⟨Nat.le_of_not_lt hA, hBC⟩⟩

theorem mergeStep_inv (cs co : Nat) (sep : String) (acc : MergeAcc)
    (d : String)
    (h1 : acc.total = wlen sep.length acc.cur)
    (h2 : acc.total ≤ cs)
    (h3 : ∀ c ∈ acc.docs, c.length ≤ cs)
    (h4 : ∀ x ∈ acc.cur, 1 ≤ x.length ∧ x.length ≤ cs)
    (hd1 : 1 ≤ d.length) (hd2 : d.length ≤ cs) :
    (mergeStep cs co sep acc d).total =
        wlen sep.length (mergeStep cs co sep acc d).cur ∧
      (mergeStep cs co sep acc d).total ≤ cs ∧
      (∀ c ∈ (mergeStep cs co sep acc d).docs, c.length ≤ cs) ∧
      (∀ x ∈ (mergeStep cs co sep acc d).cur,
        1 ≤ x.length ∧ x.length ≤ cs) := by
  simp only [mergeStep]
  by_cases hov : cs < acc.total + d.length +
      (if acc.cur.isEmpty then 0 else sep.length)
  · rw [if_pos hov]
    by_cases hce : acc.cur.isEmpty = true
    · exfalso
      have hcur : acc.cur = [] := List.isEmpty_iff.mp hce
      rw [hcur] at h1
      simp [wlen] at h1
      rw [hce] at hov
      simp at hov
      omega
    · rw [if_neg hce]
      dsimp only
      obtain ⟨p1, p2, p3⟩ := popWhile_spec cs co sep.length d.length acc.cur
        acc.total h1 (fun x hx => (h4 x hx).1)
      refine ⟨?_, ?_, ?_, ?_⟩
      · rw [wlen_append_singleton, p1]
      · by_cases hpe : (popWhile cs co sep.length d.length acc.cur
            acc.total).1.isEmpty = true
        · have hnil : (popWhile cs co sep.length d.length acc.cur
              acc.total).1 = [] := List.isEmpty_iff.mp hpe
          rw [hnil] at p1
          simp [wlen] at p1
          rw [if_pos hpe]
          omega
        · have hne : (popWhile cs co sep.length d.length acc.cur
              acc.total).1 ≠ [] := by
            intro hh
            rw [hh] at hpe
            simp at hpe
          have hpos : 1 ≤ (popWhile cs co sep.length d.length acc.cur
              acc.total).2 := by
            rw [p1]
            exact wlen_pos _ _ (fun x hx => (h4 x (p2 x hx)).1) hne
          rcases p3 with hh | ⟨hco, hnc⟩
          · exact absurd hh hne
          · have hle : (popWhile cs co sep.length d.length acc.cur
                acc.total).2 + d.length + sep.length ≤ cs := by
              by_contra hgt
              push_neg at hgt
              exact hnc ⟨hgt, by omega⟩
            rw [if_neg hpe]
            omega
      · intro c hc
        rcases List.mem_append.mp hc with hc | hc
        · exact h3 c hc
        · cases hjj : joinDocs sep acc.cur with
          | none =>
            rw [hjj] at hc
            simp at hc
          | some t =>
            rw [hjj] at hc
            simp at hc
            subst hc
            have := joinDocs_le sep acc.cur c hjj
            omega
      · intro x hx
        rcases List.mem_append.mp hx with hx | hx
        · exact h4 x (p2 x hx)
        · simp at hx
          subst hx
          exact ⟨hd1, hd2⟩
  · rw [if_neg hov]
    refine ⟨?_, ?_, h3, ?_⟩
    · rw [wlen_append_singleton, h1]
    · exact Nat.le_of_not_lt hov
    · intro x hx
      rcases List.mem_append.mp hx with hx | hx
      · exact h4 x hx
      · simp at hx
        subst hx
        exact ⟨hd1, hd2⟩

theorem mergeFold_inv (cs co : Nat) (sep : String) :
    ∀ (splits : List String) (acc : MergeAcc),
      (∀ x ∈ splits, 1 ≤ x.length ∧ x.length ≤ cs) →
      acc.total = wlen sep.length acc.cur →
      acc.total ≤ cs →
      (∀ c ∈ acc.docs, c.length ≤ cs) →
      (∀ x ∈ acc.cur, 1 ≤ x.length ∧ x.length ≤ cs) →
      (splits.foldl (mergeStep cs co sep) acc).total =
          wlen sep.length (splits.foldl (mergeStep cs co sep) acc).cur ∧
        (splits.foldl (mergeStep cs co sep) acc).total ≤ cs ∧
        (∀ c ∈ (splits.foldl (mergeStep cs co sep) acc).docs,
          c.length ≤ cs) ∧
        (∀ x ∈ (splits.foldl (mergeStep cs co sep) acc).cur,
          1 ≤ x.length ∧ x.length ≤ cs) := by
  intro splits
  induction splits with
  | nil =>
    intro acc _ h1 h2 h3 h4
    exact ⟨h1, h2, h3, h4⟩
  | cons d rest ih =>
    intro acc hsp h1 h2 h3 h4
    simp only [List.foldl_cons]
    obtain ⟨a1, a2, a3, a4⟩ := mergeStep_inv cs co sep acc d h1 h2 h3 h4
      (hsp d (by simp)).1 (hsp d (by simp)).2
    exact ih (mergeStep cs co sep acc d) (fun x hx => hsp x (by simp [hx]))
      a1 a2 a3 a4

theorem mergeSplits_le (cs co : Nat) (sep : String) :
    ∀ (splits : List String),
      (∀ x ∈ splits, 1 ≤ x.length ∧ x.length ≤ cs) →
      ∀ c ∈ mergeSplits cs co sep splits, c.length ≤ cs := by
  intro splits hsp c hc
  obtain ⟨h1, h2, h3, h4⟩ := mergeFold_inv cs co sep splits ⟨[], [], 0⟩ hsp
    rfl (Nat.zero_le cs) (by simp) (by simp)
  simp only [mergeSplits] at hc
  rcases List.mem_append.mp hc with hc | hc
  · exact h3 c hc
  · cases hjj : joinDocs sep
        (splits.foldl (mergeStep cs co sep) ⟨[], [], 0⟩).cur with
    | none =>
      rw [hjj] at hc
      simp at hc
    | some t =>
      rw [hjj] at hc
      simp at hc
      subst hc
      have := joinDocs_le sep _ c hjj
      omega

theorem loopSplits_le (cs : Nat) (mrg : List String → List String)
    (hb : String → List String)
    (hm : ∀ g : List String, (∀ x ∈ g, 1 ≤ x.length ∧ x.length ≤ cs) →
      ∀ c ∈ mrg g, c.length ≤ cs) :
    ∀ (splits good : List String),
      (∀ x ∈ good, 1 ≤ x.length ∧ x.length < cs) →
      (∀ s ∈ splits, 1 ≤ s.length) →
      (∀ s ∈ splits, ∀ c ∈ hb s, c.length ≤ cs) →
      ∀ c ∈ loopSplits cs mrg hb good splits, c.length ≤ cs := by
  intro splits
  induction splits with
  | nil =>
    intro good hg _ _ c hc
    simp only [loopSplits] at hc
    by_cases hge : good.isEmpty = true
    · rw [if_pos hge] at hc
      simp at hc
    · rw [if_neg hge] at hc
      exact hm good (fun x hx => ⟨(hg x hx).1, Nat.le_of_lt (hg x hx).2⟩) c hc
  | cons sp rest ih =>
    intro good hg hs hhb c hc
    simp only [loopSplits] at hc
    by_cases hlen : sp.length < cs
    · rw [if_pos hlen] at hc
      refine ih (good ++ [sp]) ?_ (fun x hx => hs x (by simp [hx]))
        (fun x hx => hhb x (by simp [hx])) c hc
      intro x hx
      rcases List.mem_append.mp hx with hx | hx
      · exact hg x hx
      · simp at hx
        rw [hx]
        exact ⟨hs sp (by simp), hlen⟩
    · rw [if_neg hlen] at hc
      rcases List.mem_append.mp hc with hc | hc
      · rcases List.mem_append.mp hc with hc | hc
        · by_cases hge : good.isEmpty = true
          · rw [if_pos hge] at hc
            simp at hc
          · rw [if_neg hge] at hc
            exact hm good
              (fun x hx => ⟨(hg x hx).1, Nat.le_of_lt (hg x hx).2⟩) c hc
        · exact hhb sp (by simp) c hc
      · exact ih [] (by simp) (fun x hx => hs x (by simp [hx]))
          (fun x hx => hhb x (by simp [hx])) c hc

theorem chooseSep_spec (text : String) :
    ∀ seps : List String, "" ∈ seps →
      chooseSep text seps = ("", []) ∨
      ((chooseSep text seps).1 ≠ "" ∧ "" ∈ (chooseSep text seps).2 ∧
        (chooseSep text seps).2.length < seps.length) := by
  intro seps
  induction seps with
  | nil =>
    intro h
    simp at h
  | cons sp rest ih =>
    intro hmem
    by_cases hse : sp = ""
    · left
      simp [chooseSep, hse]
    · have hrest : "" ∈ rest := by
        rcases List.mem_cons.mp hmem with h | h
        · exact absurd h.symm hse
        · exact h
      by_cases hocc : 1 < (pySplit sp text).length
      · right
        have hcc : chooseSep text (sp :: rest) = (sp, rest) := by
          simp [chooseSep, hse, hocc]
        rw [hcc]
        exact ⟨hse, hrest, by simp⟩
      · have hne : ¬ rest.isEmpty = true := by
          cases rest with
          | nil => simp at hrest
          | cons a t => simp
        have hstep : chooseSep text (sp :: rest) = chooseSep text rest := by
          simp [chooseSep, hse, hocc, hne]
        rw [hstep]
        rcases ih hrest with h | h
        · left
          exact h
        · right
          refine ⟨h.1, h.2.1, ?_⟩
          simp only [List.length_cons]
          exact Nat.lt_succ_of_lt h.2.2

theorem splitWithSep_empty_len (text : String) :
    ∀ x ∈ splitWithSep "" text, x.length = 1 := by
  intro x hx
  simp only [splitWithSep, if_pos rfl] at hx
  rcases List.mem_map.mp hx with ⟨c, _, rfl⟩
  rfl

theorem splitTextRec_le (cs co : Nat) (hcs : 1 ≤ cs) :
    ∀ (fuel : Nat) (seps : List String) (text : String),
      seps.length ≤ fuel → "" ∈ seps →
      ∀ c ∈ splitTextRec cs co fuel seps text, c.length ≤ cs := by
  intro fuel
  induction fuel with
  | zero =>
    intro seps text hlen hmem c hc
    cases seps with
    | nil => simp at hmem
    | cons a t => simp at hlen
  | succ fuel ih =>
    intro seps text hlen hmem c hc
    simp only [splitTextRec] at hc
    rcases chooseSep_spec text seps hmem with hp | ⟨hp1, hp2, hp3⟩
    · rw [hp] at hc
      refine loopSplits_le cs _ _ (mergeSplits_le cs co "") _ []
        (by simp) ?_ ?_ c hc
      · intro s hsm
        have hs1 := splitWithSep_empty_len text s (List.mem_filter.mp hsm).1
        omega
      · intro s hsm c' hc'
        simp only [List.isEmpty_nil, if_true, List.mem_singleton] at hc'
        rw [hc']
        have hs1 := splitWithSep_empty_len text s (List.mem_filter.mp hsm).1
        omega
    · have hne : ¬ (chooseSep text seps).2.isEmpty = true := by
        rcases hee : (chooseSep text seps).2 with _ | ⟨a, t⟩
        · rw [hee] at hp2
          simp at hp2
        · simp
      refine loopSplits_le cs _ _ (mergeSplits_le cs co "") _ []
        (by simp) ?_ ?_ c hc
      · intro s hsm
        have := (List.mem_filter.mp hsm).2
        simp at this
        exact (string_ne_empty_iff s).mp this
      · intro s hsm c' hc'
        rw [if_neg hne] at hc'
        refine ih (chooseSep text seps).2 s ?_ hp2 c' hc'
        omega

theorem split_text_le (text : String) :
    ∀ c ∈ split_text text_splitter text, c.length ≤ 1500 := by
  intro c hc
  exact splitTextRec_le text_splitter.chunk_size text_splitter.chunk_overlap
    (by decide) text_splitter.separators.length text_splitter.separators
    text (Nat.le_refl _) (by decide) c hc

/-- Claim C6: the chunker is configured with the prioritized separator
list (blank line, newline, sentence terminator plus space, space,
character boundary), maximum chunk size 1500 and overlap 300, and no
produced chunk's text exceeds 1500 characters. -/
theorem chunker_config_and_bound :
    text_splitter.chunk_size = 1500 ∧
    text_splitter.chunk_overlap = 300 ∧
    text_splitter.separators = ["\n\n", "\n", ". ", " ", ""] ∧
    ∀ (docs : List Doc) (c : Doc), c ∈ split_documents text_splitter docs →
      c.page_content.length ≤ 1500 := by
  refine ⟨rfl, rfl, rfl, ?_⟩
  intro docs c hc
  simp only [split_documents, List.mem_flatMap] at hc
  obtain ⟨d, hd, hc⟩ := hc
  obtain ⟨t, ht, rfl⟩ := List.mem_map.mp hc
  simpa using split_text_le d.page_content t ht

/-- Witness for C6: splitting a short document returns it whole, within
the 1500-character bound. -/
theorem chunker_config_and_bound_witness :
    (Doc.mk "hello world" []).page_content.length ≤ 1500 :=
  chunker_config_and_bound.2.2.2 [Doc.mk "hello world" []]
    (Doc.mk "hello world" []) (by decide)

end Cgmp
